import Mathlib

/-!
Shallow embedding of the StateSpaceFW search framework
(`src/fw/state.py`, `src/fw/state_space.py`, `src/fw/algorithm.py`,
`src/algorithms/*.py`) together with proofs about the claims of the
specification.

Modelling conventions:
* A concrete `State` carries a domain value of type `α`, an optional
  parent back-reference and the operator that produced it (`SState`).
* An `Operator` is a name plus its `can_be_applied_on` test and the
  value transformation performed by `apply_on`; concrete problem
  operators (`hanoi.py`, `eight_puzzle.py`) construct the child with
  `parent = state` and `applied_operator = self`, which is the shape
  `SState.apply` produces here.
* The difference evaluator is a function `α → α → ℚ` applied to the
  values of the two states (floats are modelled by rationals).
* Exceptions become explicit outcome constructors: raising
  `OperatorApplicationError` is `Except.error`, `SolutionSuccess` /
  `SolutionFailure` are `SolveOutcome.success` / `SolveOutcome.failure`,
  and the `IndexError` of `random.choice(())` is
  `SolveOutcome.indexError`.
* Unbounded `while` loops become fuel-indexed recursions; running out
  of fuel is the distinguished outcome `SolveOutcome.timeout`, so
  "the algorithm does not terminate" is "every fuel yields `timeout`".
-/

namespace StateSpaceFW

/-- An operator (`state.py`, class `Operator`): a human readable name, the
`can_be_applied_on` applicability test and the value transformation that
`apply_on` performs on the parent's domain value. -/
structure Oper (α : Type) where
  name : String
  applicable : α → Bool
  transform : α → α

/-- A state (`state.py`, class `State`): either a root (parent and applied
operator are `None`) or a child holding its domain value, the parent state
and the operator that produced it. -/
inductive SState (α : Type) where
  | root (v : α)
  | child (v : α) (parent : SState α) (op : Oper α)

namespace SState

/-- The domain value carried by a state. -/
def value : SState α → α
  | root v => v
  | child v _ _ => v

/-- `State.parent_state`: the parent back-reference (`None` for a root). -/
def parent_state : SState α → Option (SState α)
  | root _ => none
  | child _ p _ => some p

/-- `State.applied_operator`: the operator applied on the parent
(`None` for a root). -/
def applied_operator : SState α → Option (Oper α)
  | root _ => none
  | child _ _ o => some o

/-- `State.operators_sequence`: all applied operators from the initial
state to this one, in application order (the Python walks the parent
chain collecting operators and reverses the list). -/
def operators_sequence : SState α → List (Oper α)
  | root _ => []
  | child _ p o => p.operators_sequence ++ [o]

/-- `State.parents_sequence`: all ancestors from the initial state to this
state, this state included at the last position. -/
def parents_sequence : SState α → List (SState α)
  | root v => [root v]
  | child v p o => p.parents_sequence ++ [child v p o]

end SState

/-- The data carried by a raised `OperatorApplicationError`
(`state.py`): the operator that could not be applied and the state it
was applied on. -/
structure AppError (α : Type) where
  op : Oper α
  state : SState α

namespace SState

/-- `State.can_be_applied`: delegates to the operator's own test. -/
def can_be_applied (s : SState α) (o : Oper α) : Bool :=
  o.applicable s.value

/-- `State.filter_applicable`: the sub-sequence of operators applicable on
this state, preserving input order. -/
def filter_applicable (s : SState α) (operators : List (Oper α)) :
    List (Oper α) :=
  operators.filter (fun o => s.can_be_applied o)

/-- `State.apply`: raises `OperatorApplicationError` when the operator's
applicability check fails, otherwise returns the new child state. -/
def apply (s : SState α) (o : Oper α) : Except (AppError α) (SState α) :=
  if s.can_be_applied o then
    .ok (child (o.transform s.value) s o)
  else
    .error ⟨o, s⟩

end SState

/-- Python's `map` of a fallible function over a list: the function is
applied left to right and a raised error propagates immediately. -/
def exceptMap (f : β → Except ε γ) : List β → Except ε (List γ)
  | [] => .ok []
  | b :: rest =>
    match f b with
    | .error e => .error e
    | .ok c =>
      match exceptMap f rest with
      | .error e => .error e
      | .ok cs => .ok (c :: cs)

namespace SState

/-- `State.apply_all`: applies each applicable operator, in order,
producing the child states (any raised error propagates). -/
def apply_all (s : SState α) (operators : List (Oper α)) :
    Except (AppError α) (List (SState α)) :=
  exceptMap s.apply (s.filter_applicable operators)

/-- Re-application of an explicit operator sequence through `State.apply`,
starting at a given root state (used by the path-reconstruction claim). -/
def applySeq (s : SState α) : List (Oper α) → Except (AppError α) (SState α)
  | [] => .ok s
  | o :: rest => match s.apply o with
    | .error e => .error e
    | .ok c => c.applySeq rest

end SState

/-- `GoalOrientedStateSpace` (`state_space.py`): initial state, the fixed
operator tuple, the difference evaluator and a goal state. -/
structure GoalOrientedStateSpace (α : Type) where
  initial_state : SState α
  operators : List (Oper α)
  ev : α → α → ℚ
  goal_state : SState α

namespace GoalOrientedStateSpace

/-- `StateSpace.difference`: evaluator applied to the two states. -/
def difference (ss : GoalOrientedStateSpace α) (s t : SState α) : ℚ :=
  ss.ev s.value t.value

/-- `DifferenceEvaluator.are_the_same`: difference is exactly zero. -/
def are_the_same (ss : GoalOrientedStateSpace α) (s t : SState α) : Bool :=
  ss.difference s t == 0

/-- `GoalOrientedStateSpace.init_goal_equality`. -/
def init_goal_equality (ss : GoalOrientedStateSpace α) : Bool :=
  ss.are_the_same ss.initial_state ss.goal_state

/-- `GoalOrientedStateSpace.difference_from_goal` (also the shorthand
`GoalBasedAlgorithm.difference_from_goal`). -/
def difference_from_goal (ss : GoalOrientedStateSpace α) (s : SState α) : ℚ :=
  ss.difference s ss.goal_state

end GoalOrientedStateSpace

/-- `FringeBasedAlgorithm._is_in`: linear scan of the container for a
state at zero difference from the given one (container element is passed
as the first evaluator argument, as in the source). -/
def isIn (ss : GoalOrientedStateSpace α) (state : SState α)
    (container : List (SState α)) : Bool :=
  container.any (fun s => ss.are_the_same s state)

/-- `FringeBasedAlgorithm.safe_add_to_fringe` / `safe_add_to_closed`:
append the state at the end unless an evaluator-equal state is present. -/
def safeAdd (ss : GoalOrientedStateSpace α) (container : List (SState α))
    (state : SState α) : List (SState α) :=
  if isIn ss state container then container else container ++ [state]

/-- `FringeBasedAlgorithm.safe_add_all_to_fringe` /
`safe_add_all_to_closed`: `safeAdd` each state in order (the check sees
the states added before it). -/
def safeAddAll (ss : GoalOrientedStateSpace α) (container : List (SState α))
    (states : List (SState α)) : List (SState α) :=
  states.foldl (safeAdd ss) container

/-- The ways a `solve` call can end: `SolutionSuccess`, `SolutionFailure`
(with its message), an escaped `OperatorApplicationError`, the
`IndexError` raised by `random.choice` on an empty tuple, or exhaustion
of the fuel (modelling non-termination of the unbounded loop). -/
inductive SolveOutcome (α : Type) where
  | success (final : SState α)
  | failure (msg : String)
  | opError (e : AppError α)
  | indexError
  | timeout

namespace SolveOutcome

/-- Whether the outcome is a `SolutionSuccess`. -/
def isSuccess : SolveOutcome α → Bool
  | success _ => true
  | _ => false

/-- Whether the outcome is a `SolutionFailure`. -/
def isFailure : SolveOutcome α → Bool
  | failure _ => true
  | _ => false

/-- Whether the outcome is an escaped `OperatorApplicationError`. -/
def isOpError : SolveOutcome α → Bool
  | opError _ => true
  | _ => false

/-- Whether the outcome is the `IndexError` of `random.choice(())`. -/
def isIndexError : SolveOutcome α → Bool
  | indexError => true
  | _ => false

/-- Whether the run terminated (did not run out of fuel). -/
def terminated : SolveOutcome α → Bool
  | timeout => false
  | _ => true

end SolveOutcome

/-- The mutable part of a running `FringeBasedAlgorithm`: the fringe and
the closed list. -/
structure LoopState (α : Type) where
  fringe : List (SState α)
  closed : List (SState α)

/-- The message of the `SolutionFailure` raised by
`GoalOrientedBlindAlgorithm.solve` when the fringe empties. -/
def failMsg : String :=
  "All states were searched and no suitable result was found"

/-- Result of one iteration of the `while` loop of
`GoalOrientedBlindAlgorithm.solve`: either the loop ends with an outcome
or it continues with an updated fringe and closed list. -/
inductive StepRes (α : Type) where
  | done (o : SolveOutcome α)
  | next (ls : LoopState α)

/-- One iteration of the `while` loop of
`GoalOrientedBlindAlgorithm.solve`.  The strategy-specific
`next_from_fringe` is `list.pop(i)` at the index chosen by `pick`
(BFS pops index `0`, DFS the last index, Best-first and A* the index
computed by their scans). -/
def blindStep (ss : GoalOrientedStateSpace α) (minimize : Bool)
    (pick : List (SState α) → Nat) (ls : LoopState α) : StepRes α :=
  match ls.fringe with
  | [] => .done (.failure failMsg)
  | x :: xs =>
    let i := pick (x :: xs)
    let current_state := (x :: xs).getD i x
    let rest := (x :: xs).eraseIdx i
    if minimize && isIn ss current_state ls.closed then
      .next ⟨rest, ls.closed⟩
    else
      match current_state.apply_all
          (current_state.filter_applicable ss.operators) with
      | .error e => .done (.opError e)
      | .ok children =>
        match children.find?
            (fun c => ss.difference_from_goal c == 0) with
        | some child => .done (.success child)
        | none =>
          if minimize then
            .next ⟨safeAddAll ss rest children,
                   safeAdd ss ls.closed current_state⟩
          else
            .next ⟨rest ++ children, ls.closed ++ [current_state]⟩

/-- The fuel-indexed `while` loop of `GoalOrientedBlindAlgorithm.solve`. -/
def blindRun (ss : GoalOrientedStateSpace α) (minimize : Bool)
    (pick : List (SState α) → Nat) (ls : LoopState α) :
    Nat → SolveOutcome α
  | 0 => .timeout
  | fuel + 1 =>
    match blindStep ss minimize pick ls with
    | .done o => o
    | .next ls' => blindRun ss minimize pick ls' fuel

/-- `GoalOrientedBlindAlgorithm.solve`: the initial/goal equality check,
then the loop started on the constructor's fringe `[initial_state]` and
empty closed list. -/
def blindSolve (ss : GoalOrientedStateSpace α) (minimize : Bool)
    (pick : List (SState α) → Nat) (fuel : Nat) : SolveOutcome α :=
  if ss.init_goal_equality then .success ss.initial_state
  else blindRun ss minimize pick ⟨[ss.initial_state], []⟩ fuel

/-- `GOBFS.next_from_fringe` is `self._fringe.pop(0)`. -/
def bfsPick (_fringe : List (SState α)) : Nat := 0

/-- `GODFS.next_from_fringe` is `self._fringe.pop()`: the last index. -/
def dfsPick (fringe : List (SState α)) : Nat := fringe.length - 1

/-- The index popped by `GOBestFirstSearch.next_from_fringe`:
`lowest_state` starts at `0`, `lowest_val` is the goal-difference of
`fringe[0]` (and is never updated), and the loop runs over
`enumerate(self.fringe[1:])`, setting `lowest_state = index` whenever the
scanned state's goal-difference is strictly below `lowest_val`. -/
def bestFirstPick (ss : GoalOrientedStateSpace α)
    (fringe : List (SState α)) : Nat :=
  match fringe with
  | [] => 0
  | x :: xs =>
    let lowest_val := ss.difference_from_goal x
    xs.enum.foldl
      (fun lowest_state p =>
        if ss.difference_from_goal p.2 < lowest_val then p.1
        else lowest_state)
      0

/-- `GOAStar._further_state_evaluation`: goal-difference plus
`len(state.parents_sequence)`. -/
def aStarEval (ss : GoalOrientedStateSpace α) (s : SState α) : ℚ :=
  ss.difference_from_goal s + (s.parents_sequence.length : ℚ)

/-- The index popped by `GOAStar.next_from_fringe`: same scan as
Best-first but comparing `_further_state_evaluation` with `<=` against
the never-updated value of `fringe[0]`. -/
def aStarPick (ss : GoalOrientedStateSpace α)
    (fringe : List (SState α)) : Nat :=
  match fringe with
  | [] => 0
  | x :: xs =>
    let lowest_val := aStarEval ss x
    xs.enum.foldl
      (fun lowest_state p =>
        if aStarEval ss p.2 ≤ lowest_val then p.1
        else lowest_state)
      0

/-- `GOBFS.solve` (`minimize_accesses` defaults to `True`). -/
def GOBFS.solve (ss : GoalOrientedStateSpace α) (fuel : Nat) :
    SolveOutcome α :=
  blindSolve ss true bfsPick fuel

/-- `GODFS.solve` (`minimize_accesses` defaults to `True`). -/
def GODFS.solve (ss : GoalOrientedStateSpace α) (fuel : Nat) :
    SolveOutcome α :=
  blindSolve ss true dfsPick fuel

/-- `GOBestFirstSearch.solve` (`minimize_accesses` defaults to `True`). -/
def GOBestFirstSearch.solve (ss : GoalOrientedStateSpace α) (fuel : Nat) :
    SolveOutcome α :=
  blindSolve ss true (bestFirstPick ss) fuel

/-- `GOAStar.solve` (`minimize_accesses` defaults to `True`). -/
def GOAStar.solve (ss : GoalOrientedStateSpace α) (fuel : Nat) :
    SolveOutcome α :=
  blindSolve ss true (aStarPick ss) fuel

/-- The fuel-indexed loops of `GOIDDFS.solve`.  The two nested `while`
loops are merged: an empty fringe is the end of the inner loop, upon
which the depth limit is raised by the increment and the deferred
`deeper_nodes` seed the fringe (through `safe_add_all_to_fringe` on the
empty fringe).  A non-empty fringe runs one inner iteration: pop the
last element, skip it when `minimize_accesses` finds it in closed,
otherwise succeed when its goal-difference is not positive, and
otherwise expand — children of a state whose
`len(parents_sequence) - 1` reaches the depth limit go to
`deeper_nodes`, the rest enter the fringe. -/
def GOIDDFS.run (ss : GoalOrientedStateSpace α) (minimize : Bool)
    (inc : Nat) : Nat → List (SState α) → List (SState α) →
    List (SState α) → Nat → SolveOutcome α
  | _, _, _, _, 0 => .timeout
  | depthLim, [], closed, deeper, fuel + 1 =>
    GOIDDFS.run ss minimize inc (depthLim + inc)
      (safeAddAll ss [] deeper) closed [] fuel
  | depthLim, x :: xs, closed, deeper, fuel + 1 =>
    let i := (x :: xs).length - 1
    let current_state := (x :: xs).getD i x
    let rest := (x :: xs).eraseIdx i
    if minimize && isIn ss current_state closed then
      GOIDDFS.run ss minimize inc depthLim rest closed deeper fuel
    else if 0 < ss.difference_from_goal current_state then
      match current_state.apply_all
          (current_state.filter_applicable ss.operators) with
      | .error e => .opError e
      | .ok children =>
        if depthLim ≤ current_state.parents_sequence.length - 1 then
          GOIDDFS.run ss minimize inc depthLim rest closed
            (deeper ++ children) fuel
        else if minimize then
          GOIDDFS.run ss minimize inc depthLim
            (safeAddAll ss rest children)
            (safeAdd ss closed current_state) deeper fuel
        else
          GOIDDFS.run ss minimize inc depthLim (rest ++ children)
            (closed ++ [current_state]) deeper fuel
    else .success current_state

/-- `GOIDDFS.solve`: the first outer iteration raises the depth limit
from `0` to the increment and seeds the empty `deeper_nodes` into the
constructor's fringe `[initial_state]`. -/
def GOIDDFS.solve (ss : GoalOrientedStateSpace α) (minimize : Bool)
    (inc : Nat) (fuel : Nat) : SolveOutcome α :=
  GOIDDFS.run ss minimize inc inc [ss.initial_state] [] [] fuel

/-- A default operator, used only as the (never reached) fallback of
`List.getD` when modelling `random.choice` on a non-empty tuple. -/
def dummyOper : Oper α := ⟨"", fun _ => false, id⟩

/-- The fuel-indexed `while` loop of `RandomOperatorPicker.solve`.
`random.choice` over the applicable operators is modelled by the `picks`
stream: on an empty tuple it raises `IndexError`, otherwise it selects
the operator at index `picks fuel % length`. -/
def RandomOperatorPicker.run (ss : GoalOrientedStateSpace α)
    (picks : Nat → Nat) : SState α → Nat → SolveOutcome α
  | _, 0 => .timeout
  | current_state, fuel + 1 =>
    if 0 < ss.difference_from_goal current_state then
      let applicable_operators :=
        current_state.filter_applicable ss.operators
      match applicable_operators with
      | [] => .indexError
      | _ :: _ =>
        let applying := applicable_operators.getD
          (picks fuel % applicable_operators.length) dummyOper
        match current_state.apply applying with
        | .error e => .opError e
        | .ok next => RandomOperatorPicker.run ss picks next fuel
    else .success current_state

/-- `RandomOperatorPicker.solve`: the loop started at the initial state. -/
def RandomOperatorPicker.solve (ss : GoalOrientedStateSpace α)
    (picks : Nat → Nat) (fuel : Nat) : SolveOutcome α :=
  RandomOperatorPicker.run ss picks ss.initial_state fuel

/-- The `for _ in range(shuffle_grade)` loop of
`StateSpaceShuffle.shuffle`: filter the applicable operators, pick one
at random (`IndexError` on an empty tuple, as with `random.choice`) and
apply it on the current state. -/
def StateSpaceShuffle.run (operators : List (Oper α)) (picks : Nat → Nat) :
    SState α → Nat → Except Unit (SState α)
  | current_state, 0 => .ok current_state
  | current_state, grade + 1 =>
    let applicable_ops := current_state.filter_applicable operators
    match applicable_ops with
    | [] => .error ()
    | _ :: _ =>
      let chosen := applicable_ops.getD
        (picks grade % applicable_ops.length) dummyOper
      match current_state.apply chosen with
      | .error _ => .error ()
      | .ok next => StateSpaceShuffle.run operators picks next grade

/-- `StateSpaceShuffle.shuffle`: walk `shuffle_grade` random steps from
the goal state, clear the produced state's parent and applied operator
(making it a fresh root) and build the goal-oriented state space. -/
def StateSpaceShuffle.shuffle (goal_state : SState α)
    (operators : List (Oper α)) (ev : α → α → ℚ) (shuffle_grade : Nat)
    (picks : Nat → Nat) : Except Unit (GoalOrientedStateSpace α) :=
  match StateSpaceShuffle.run operators picks goal_state shuffle_grade with
  | .error e => .error e
  | .ok s => .ok ⟨SState.root s.value, operators, ev, goal_state⟩

/-- The number of operator applications from the root to a state: the
length of its operator sequence (the spec's notion of depth). -/
def SState.depth (s : SState α) : ℕ := s.operators_sequence.length

/-- A walk on domain values: `VWalk ops v w k` holds when some sequence
of `k` operators from `ops`, each applicable where it is applied, leads
from the value `v` to the value `w`. -/
inductive VWalk (ops : List (Oper α)) : α → α → ℕ → Prop where
  | nil (v : α) : VWalk ops v v 0
  | cons {v u : α} {k : ℕ} (o : Oper α) (ho : o ∈ ops)
      (ha : o.applicable v = true)
      (h : VWalk ops (o.transform v) u k) : VWalk ops v u (k + 1)

/-- A domain value reachable from the state space's initial state by
applicable operators of the state space. -/
inductive ReachableVal (ss : GoalOrientedStateSpace α) : α → Prop where
  | init : ReachableVal ss ss.initial_state.value
  | step {v : α} (o : Oper α) (ho : o ∈ ss.operators)
      (ha : o.applicable v = true) (h : ReachableVal ss v) :
      ReachableVal ss (o.transform v)

/-- `ReachedBy root l s`: the state `s` was produced from `root` by
successively applying the operators of `l`, each applicable on the state
it was applied to. -/
inductive ReachedBy (root : SState α) : List (Oper α) → SState α → Prop where
  | nil : ReachedBy root [] root
  | snoc {l : List (Oper α)} {s : SState α} (o : Oper α)
      (h : ReachedBy root l s) (ha : o.applicable s.value = true) :
      ReachedBy root (l ++ [o]) (SState.child (o.transform s.value) s o)

/-- The children produced by expanding a state on the applicable
operators, as built by the concrete `Operator.apply_on` implementations
(child value is the transformed value, parent is the expanded state). -/
def childrenOf (s : SState α) (ops : List (Oper α)) : List (SState α) :=
  (s.filter_applicable ops).map
    (fun o => SState.child (o.transform s.value) s o)

theorem SState.depth_root (v : α) : (SState.root v).depth = 0 := rfl

theorem SState.depth_child (v : α) (p : SState α) (o : Oper α) :
    (SState.child v p o).depth = p.depth + 1 := by
  simp [SState.depth, SState.operators_sequence]

theorem SState.parents_sequence_length (s : SState α) :
    s.parents_sequence.length = s.depth + 1 := by
  induction s with
  | root v => rfl
  | child v p o ih =>
    simp [SState.parents_sequence, SState.depth_child, ih]

theorem SState.filter_applicable_idem (s : SState α) (l : List (Oper α)) :
    s.filter_applicable (s.filter_applicable l) = s.filter_applicable l := by
  simp [SState.filter_applicable, List.filter_filter]

theorem SState.exceptMap_apply_ok (s : SState α) (l : List (Oper α))
    (h : ∀ o ∈ l, s.can_be_applied o = true) :
    exceptMap s.apply l =
      .ok (l.map (fun o => SState.child (o.transform s.value) s o)) := by
  induction l with
  | nil => rfl
  | cons o rest ih =>
    have ho : s.can_be_applied o = true := h o (List.mem_cons_self o rest)
    have hrest : exceptMap s.apply rest =
        .ok (rest.map (fun o => SState.child (o.transform s.value) s o)) :=
      ih (fun o' ho' => h o' (List.mem_cons_of_mem o ho'))
    simp [exceptMap, hrest, SState.apply, ho]

theorem SState.apply_all_ok (s : SState α) (l : List (Oper α)) :
    s.apply_all l =
      .ok ((s.filter_applicable l).map
        (fun o => SState.child (o.transform s.value) s o)) := by
  unfold SState.apply_all
  exact SState.exceptMap_apply_ok s _ (fun o ho => (List.mem_filter.mp ho).2)

theorem SState.apply_all_filter_ok (s : SState α) (ops : List (Oper α)) :
    s.apply_all (s.filter_applicable ops) = .ok (childrenOf s ops) := by
  rw [SState.apply_all, SState.filter_applicable_idem]
  exact SState.exceptMap_apply_ok s _ (fun o ho => (List.mem_filter.mp ho).2)

theorem mem_childrenOf {c s : SState α} {ops : List (Oper α)} :
    c ∈ childrenOf s ops ↔
      ∃ o, o ∈ ops ∧ o.applicable s.value = true ∧
        c = SState.child (o.transform s.value) s o := by
  simp only [childrenOf, List.mem_map, SState.filter_applicable,
    List.mem_filter, SState.can_be_applied]
  constructor
  · rintro ⟨o, ⟨ho, ha⟩, rfl⟩; exact ⟨o, ho, ha, rfl⟩
  · rintro ⟨o, ho, ha, rfl⟩; exact ⟨o, ⟨ho, ha⟩, rfl⟩

theorem isIn_iff (ss : GoalOrientedStateSpace α) (x : SState α)
    (l : List (SState α)) :
    isIn ss x l = true ↔ ∃ s ∈ l, ss.ev s.value x.value = 0 := by
  simp [isIn, GoalOrientedStateSpace.are_the_same,
    GoalOrientedStateSpace.difference, List.any_eq_true]

theorem safeAddAll_eq_append (ss : GoalOrientedStateSpace α)
    (base cs : List (SState α)) :
    ∃ l, safeAddAll ss base cs = base ++ l ∧ ∀ x ∈ l, x ∈ cs := by
  induction cs generalizing base with
  | nil => exact ⟨[], by simp [safeAddAll], by simp⟩
  | cons c cs ih =>
    by_cases h : isIn ss c base = true
    · rcases ih base with ⟨l, hl, hmem⟩
      refine ⟨l, ?_, fun x hx => List.mem_cons_of_mem c (hmem x hx)⟩
      show safeAddAll ss (safeAdd ss base c) cs = base ++ l
      rw [show safeAdd ss base c = base from by simp [safeAdd, h]]
      exact hl
    · rcases ih (base ++ [c]) with ⟨l, hl, hmem⟩
      refine ⟨c :: l, ?_, ?_⟩
      · show safeAddAll ss (safeAdd ss base c) cs = base ++ c :: l
        rw [show safeAdd ss base c = base ++ [c] from by simp [safeAdd, h]]
        rw [hl]; simp
      · intro x hx
        rcases List.mem_cons.mp hx with rfl | hx
        · exact List.mem_cons_self x cs
        · exact List.mem_cons_of_mem c (hmem x hx)

theorem subset_safeAddAll (ss : GoalOrientedStateSpace α)
    (base cs : List (SState α)) : base ⊆ safeAddAll ss base cs := by
  rcases safeAddAll_eq_append ss base cs with ⟨l, hl, _⟩
  rw [hl]; exact List.subset_append_left base l

theorem mem_safeAddAll (ss : GoalOrientedStateSpace α)
    {base cs : List (SState α)} {x : SState α}
    (hx : x ∈ safeAddAll ss base cs) : x ∈ base ∨ x ∈ cs := by
  rcases safeAddAll_eq_append ss base cs with ⟨l, hl, hmem⟩
  rw [hl] at hx
  rcases List.mem_append.mp hx with h | h
  · exact Or.inl h
  · exact Or.inr (hmem x h)

theorem safeAddAll_covers (ss : GoalOrientedStateSpace α)
    (base cs : List (SState α)) :
    ∀ c ∈ cs, ∃ f ∈ safeAddAll ss base cs,
      ss.ev f.value c.value = 0 ∨ f = c := by
  induction cs generalizing base with
  | nil => intro c hc; cases hc
  | cons d cs ih =>
    intro c hc
    have hstep : safeAddAll ss base (d :: cs) =
        safeAddAll ss (safeAdd ss base d) cs := rfl
    rcases List.mem_cons.mp hc with rfl | hc
    · by_cases h : isIn ss c base = true
      · rcases (isIn_iff ss c base).mp h with ⟨s, hs, hev⟩
        refine ⟨s, ?_, Or.inl hev⟩
        rw [hstep]
        exact subset_safeAddAll ss _ cs (by simp [safeAdd, h, hs])
      · refine ⟨c, ?_, Or.inr rfl⟩
        rw [hstep]
        exact subset_safeAddAll ss _ cs (by simp [safeAdd, h])
    · rw [hstep]; exact ih (safeAdd ss base d) c hc

theorem mem_safeAdd (ss : GoalOrientedStateSpace α)
    {base : List (SState α)} {x c : SState α}
    (hx : x ∈ safeAdd ss base c) : x ∈ base ∨ x = c := by
  unfold safeAdd at hx
  by_cases h : isIn ss c base = true
  · simp [h] at hx; exact Or.inl hx
  · simp [h] at hx; exact hx

theorem getD_mem {β : Type} {l : List β} {d : β} (i : ℕ)
    (hd : d ∈ l) : l.getD i d ∈ l := by
  rcases Nat.lt_or_ge i l.length with h | h
  · rw [List.getD_eq_getElem l d h]; exact List.getElem_mem h
  · rw [List.getD_eq_default l d h]; exact hd

/-! Small concrete instances used to witness the claim theorems. -/

/-- A discrete-style evaluator on naturals: zero exactly on equal values,
otherwise the (positive) sum of the two values. -/
def evd : ℕ → ℕ → ℚ := fun v w => if v = w then 0 else ((v + w : ℕ) : ℚ)

theorem evd_eq_zero_iff (v w : ℕ) : evd v w = 0 ↔ v = w := by
  unfold evd
  by_cases h : v = w
  · simp [h]
  · simp only [h, if_false, iff_false]
    intro hc
    have : v + w = 0 := by exact_mod_cast hc
    omega

/-- An operator applicable exactly on the value `a`, rewriting it to `b`. -/
def opTo (a b : ℕ) : Oper ℕ := ⟨"step", fun v => v == a, fun _ => b⟩

/-- An always-applicable operator that keeps the value unchanged. -/
def opStay : Oper ℕ := ⟨"stay", fun _ => true, id⟩

/-- A two-step chain `1 -> 2 -> 3` with goal value `3`. -/
def exChain : GoalOrientedStateSpace ℕ :=
  ⟨SState.root 1, [opTo 1 2, opTo 2 3], evd, SState.root 3⟩

/-- A space whose initial state is already the goal. -/
def exSame : GoalOrientedStateSpace ℕ :=
  ⟨SState.root 0, [opTo 0 1], evd, SState.root 0⟩

/-- A space with no operators at all: the initial state is a dead end and
the goal is unreachable. -/
def exDead : GoalOrientedStateSpace ℕ :=
  ⟨SState.root 1, [], evd, SState.root 0⟩

/-- A space with a single self-loop operator: no dead end, but the goal
value `0` is unreachable from the initial value `1`. -/
def exLoop : GoalOrientedStateSpace ℕ :=
  ⟨SState.root 1, [opStay], evd, SState.root 0⟩

/-- The state space used for the selection-scan analyses; only its
evaluator and goal matter. -/
def exSel : GoalOrientedStateSpace ℕ :=
  ⟨SState.root 9, [], evd, SState.root 0⟩

/-- A two-element fringe whose goal-distances are `5` then `3`. -/
def frSel : List (SState ℕ) := [SState.root 5, SState.root 3]

/-- C6: `State.apply` raises `InapplicableOperatorError` exactly when the
operator's own applicability check on the state is false; when the check
holds it returns, raising no error, a new child state whose parent is the
state and whose applied operator is the operator. -/
theorem claim6_state_apply (s : SState α) (o : Oper α) :
    ((∃ e, s.apply o = .error e) ↔ o.applicable s.value = false) ∧
    (o.applicable s.value = true →
      s.apply o = .ok (SState.child (o.transform s.value) s o) ∧
      (SState.child (o.transform s.value) s o).parent_state = some s ∧
      (SState.child (o.transform s.value) s o).applied_operator = some o) := by
  constructor
  · constructor
    · rintro ⟨e, he⟩
      cases h : o.applicable s.value
      · rfl
      · exfalso
        simp [SState.apply, SState.can_be_applied, h] at he
    · intro h
      exact ⟨⟨o, s⟩, by simp [SState.apply, SState.can_be_applied, h]⟩
  · intro h
    exact ⟨by simp [SState.apply, SState.can_be_applied, h], rfl, rfl⟩

/-- Witness for C6: on value `0` the operator `0->1` applies and produces
the child; on value `1` its check fails and the error is raised. -/
theorem claim6_state_apply_witness :
    (SState.apply (SState.root 0) (opTo 0 1) =
      .ok (SState.child 1 (SState.root 0) (opTo 0 1))) ∧
    ∃ e, SState.apply (SState.root 1) (opTo 0 1) = .error e := by
  refine ⟨((claim6_state_apply (SState.root 0) (opTo 0 1)).2 rfl).1, ?_⟩
  exact (claim6_state_apply (SState.root 1) (opTo 0 1)).1.mpr rfl

theorem SState.applySeq_append (s : SState α) (l1 l2 : List (Oper α)) :
    s.applySeq (l1 ++ l2) =
      match s.applySeq l1 with
      | .error e => .error e
      | .ok t => t.applySeq l2 := by
  induction l1 generalizing s with
  | nil => simp [SState.applySeq]
  | cons o rest ih =>
    show SState.applySeq s (o :: (rest ++ l2)) = _
    rw [SState.applySeq, SState.applySeq]
    cases h : s.apply o with
    | error e => rfl
    | ok c => exact ih c

theorem ReachedBy.opseq {root s : SState α} {l : List (Oper α)}
    (h : ReachedBy root l s) (hr : root.parent_state = none) :
    s.operators_sequence = l := by
  induction h with
  | nil =>
    cases root with
    | root v => rfl
    | child v p o => simp [SState.parent_state] at hr
  | snoc o h ha ih => simp [SState.operators_sequence, ih]

theorem ReachedBy.applySeq_ok {root s : SState α} {l : List (Oper α)}
    (h : ReachedBy root l s) : root.applySeq l = .ok s := by
  induction h with
  | nil => rfl
  | snoc o h ha ih =>
    rw [SState.applySeq_append, ih]
    simp [SState.applySeq, SState.apply, SState.can_be_applied, ha]

/-- C9: a state reached from a root by `N` successive applicable operator
applications has an operator sequence of length `N` listing exactly those
operators in application order, and re-applying that sequence to the root
through `State.apply` succeeds and reproduces a state at evaluator
difference zero from the original (the evaluator satisfying the assumed
`d(s, s) = 0` identity). -/
theorem claim9_path_reconstruction (ss : GoalOrientedStateSpace α)
    (root s : SState α) (l : List (Oper α))
    (hroot : root.parent_state = none)
    (hreach : ReachedBy root l s)
    (hrefl : ∀ v, ss.ev v v = 0) :
    s.operators_sequence = l ∧
    s.operators_sequence.length = l.length ∧
    ∃ s', root.applySeq s.operators_sequence = .ok s' ∧
      ss.difference s' s = 0 := by
  have hseq := hreach.opseq hroot
  refine ⟨hseq, by rw [hseq], s, ?_, ?_⟩
  · rw [hseq]; exact hreach.applySeq_ok
  · exact hrefl s.value

/-- Witness for C9 on the chain `1 -> 2`: one application, sequence
`[1->2]`, and replaying it reproduces the state at difference zero. -/
theorem claim9_path_reconstruction_witness :
    (SState.child 2 (SState.root 1) (opTo 1 2)).operators_sequence =
      [opTo 1 2] ∧
    (SState.child 2 (SState.root 1) (opTo 1 2)).operators_sequence.length =
      [opTo 1 2].length ∧
    ∃ s', (SState.root 1).applySeq
        (SState.child 2 (SState.root 1) (opTo 1 2)).operators_sequence =
        .ok s' ∧
      exChain.difference s' (SState.child 2 (SState.root 1) (opTo 1 2)) = 0 :=
  claim9_path_reconstruction exChain (SState.root 1)
    (SState.child 2 (SState.root 1) (opTo 1 2)) [opTo 1 2] rfl
    (ReachedBy.snoc (opTo 1 2) ReachedBy.nil rfl)
    (fun v => (evd_eq_zero_iff v v).mpr rfl)

theorem blindSolve_init_goal (ss : GoalOrientedStateSpace α)
    (minimize : Bool) (pick : List (SState α) → Nat) (fuel : ℕ)
    (hz : ss.ev ss.initial_state.value ss.goal_state.value = 0) :
    blindSolve ss minimize pick fuel = .success ss.initial_state := by
  unfold blindSolve
  have h : ss.init_goal_equality = true := by
    simp [GoalOrientedStateSpace.init_goal_equality,
      GoalOrientedStateSpace.are_the_same,
      GoalOrientedStateSpace.difference, hz]
  simp [h]

/-- C4: when the initial state is evaluator-equal to the goal (difference
zero), every strategy's `solve` terminates successfully at once, reporting
the initial state itself — the blind loop (BFS, DFS, Best-first, A*)
through its initial equality check, IDDFS at the first dequeue and the
random walk through its loop guard — without applying any operator. -/
theorem claim4_zero_distance_immediate (ss : GoalOrientedStateSpace α)
    (hz : ss.ev ss.initial_state.value ss.goal_state.value = 0) :
    (∀ fuel, GOBFS.solve ss fuel = .success ss.initial_state) ∧
    (∀ fuel, GODFS.solve ss fuel = .success ss.initial_state) ∧
    (∀ fuel, GOBestFirstSearch.solve ss fuel = .success ss.initial_state) ∧
    (∀ fuel, GOAStar.solve ss fuel = .success ss.initial_state) ∧
    (∀ minimize inc fuel,
      GOIDDFS.solve ss minimize inc (fuel + 1) = .success ss.initial_state) ∧
    (∀ picks fuel,
      RandomOperatorPicker.solve ss picks (fuel + 1) =
        .success ss.initial_state) := by
  refine ⟨fun fuel => blindSolve_init_goal ss true bfsPick fuel hz,
    fun fuel => blindSolve_init_goal ss true dfsPick fuel hz,
    fun fuel => blindSolve_init_goal ss true (bestFirstPick ss) fuel hz,
    fun fuel => blindSolve_init_goal ss true (aStarPick ss) fuel hz,
    ?_, ?_⟩
  · intro minimize inc fuel
    unfold GOIDDFS.solve
    rw [GOIDDFS.run]
    simp [isIn, GoalOrientedStateSpace.difference_from_goal,
      GoalOrientedStateSpace.difference, hz]
  · intro picks fuel
    unfold RandomOperatorPicker.solve
    rw [RandomOperatorPicker.run]
    simp [GoalOrientedStateSpace.difference_from_goal,
      GoalOrientedStateSpace.difference, hz]

/-- Witness for C4 on a space whose initial and goal states both carry
the value `0`. -/
theorem claim4_zero_distance_immediate_witness :
    (∀ fuel, GOBFS.solve exSame fuel = .success exSame.initial_state) ∧
    (∀ fuel, GODFS.solve exSame fuel = .success exSame.initial_state) ∧
    (∀ fuel,
      GOBestFirstSearch.solve exSame fuel = .success exSame.initial_state) ∧
    (∀ fuel, GOAStar.solve exSame fuel = .success exSame.initial_state) ∧
    (∀ minimize inc fuel,
      GOIDDFS.solve exSame minimize inc (fuel + 1) =
        .success exSame.initial_state) ∧
    (∀ picks fuel,
      RandomOperatorPicker.solve exSame picks (fuel + 1) =
        .success exSame.initial_state) :=
  claim4_zero_distance_immediate exSame (by simp [exSame, evd])

/-- C7: in `GOIDDFS.solve`, a dequeued state that is neither skipped as a
closed duplicate nor goal-equal, and whose depth
(`len(parents_sequence) - 1`) has reached the depth limit, has its
children appended to `deeper_nodes` instead of the fringe; they enter the
fringe only when the fringe has emptied and the next outer iteration
starts with the limit raised by the increment. -/
theorem claim7_iddfs_deferral (ss : GoalOrientedStateSpace α)
    (minimize : Bool) (inc depthLim fuel : ℕ) (x cur : SState α)
    (xs closed deeper : List (SState α))
    (hcur : (x :: xs).getD ((x :: xs).length - 1) x = cur)
    (hskip : (minimize && isIn ss cur closed) = false)
    (hgoal : 0 < ss.difference_from_goal cur)
    (hdeep : depthLim ≤ cur.parents_sequence.length - 1) :
    GOIDDFS.run ss minimize inc depthLim (x :: xs) closed deeper (fuel + 1) =
      GOIDDFS.run ss minimize inc depthLim
        ((x :: xs).eraseIdx ((x :: xs).length - 1)) closed
        (deeper ++ childrenOf cur ss.operators) fuel ∧
    GOIDDFS.run ss minimize inc depthLim [] closed deeper (fuel + 1) =
      GOIDDFS.run ss minimize inc (depthLim + inc)
        (safeAddAll ss [] deeper) closed [] fuel := by
  refine ⟨?_, rfl⟩
  rw [GOIDDFS.run]
  simp only [hcur, hskip, Bool.false_eq_true, if_false,
    SState.apply_all_filter_ok, if_pos hgoal, if_pos hdeep]

/-- Witness for C7: the root of the chain space at depth limit `0` defers
its children to the next outer iteration. -/
theorem claim7_iddfs_deferral_witness :
    GOIDDFS.run exChain true 1 0 [SState.root 1] [] [] 4 =
      GOIDDFS.run exChain true 1 0
        ([SState.root 1].eraseIdx ([SState.root 1].length - 1)) []
        ([] ++ childrenOf (SState.root 1) exChain.operators) 3 ∧
    GOIDDFS.run exChain true 1 0 [] [] [] 4 =
      GOIDDFS.run exChain true 1 (0 + 1) (safeAddAll exChain [] []) [] [] 3 :=
  claim7_iddfs_deferral exChain true 1 0 3 (SState.root 1) (SState.root 1)
    [] [] [] rfl rfl (by norm_num [exChain, GoalOrientedStateSpace.difference_from_goal,
      GoalOrientedStateSpace.difference, evd, SState.value]) (by simp)

/-- C10: inside `RandomOperatorPicker.solve`, a current state that is not
evaluator-equal to the goal (its non-negative goal-difference is nonzero)
but has no applicable operator makes `random.choice` raise `IndexError`
rather than ending in success or failure; `StateSpaceShuffle.shuffle`
behaves the same at such a dead end. -/
theorem claim10_dead_end_index_error (ss : GoalOrientedStateSpace α)
    (cur : SState α) (picks : ℕ → ℕ) (fuel grade : ℕ)
    (hnn : 0 ≤ ss.difference_from_goal cur)
    (hne : ss.difference_from_goal cur ≠ 0)
    (hdead : cur.filter_applicable ss.operators = []) :
    RandomOperatorPicker.run ss picks cur (fuel + 1) = .indexError ∧
    StateSpaceShuffle.run ss.operators picks cur (grade + 1) = .error () := by
  have hpos : 0 < ss.difference_from_goal cur :=
    lt_of_le_of_ne hnn (Ne.symm hne)
  constructor
  · rw [RandomOperatorPicker.run]
    simp [if_pos hpos, hdead]
  · rw [StateSpaceShuffle.run]
    simp [hdead]

/-- Witness for C10 on the operator-free space: the initial value `1` is
not the goal value `0` and has no applicable operator. -/
theorem claim10_dead_end_index_error_witness :
    RandomOperatorPicker.run exDead (fun _ => 0) (SState.root 1) 1 =
      .indexError ∧
    StateSpaceShuffle.run exDead.operators (fun _ => 0) (SState.root 1) 3 =
      .error () :=
  claim10_dead_end_index_error exDead (SState.root 1) (fun _ => 0) 0 2
    (by norm_num [exDead, GoalOrientedStateSpace.difference_from_goal,
      GoalOrientedStateSpace.difference, evd, SState.value])
    (by norm_num [exDead, GoalOrientedStateSpace.difference_from_goal,
      GoalOrientedStateSpace.difference, evd, SState.value])
    rfl

/-- C2 (against the claim): on the fringe with goal-distances `[5, 3]`,
`GOBestFirstSearch.next_from_fringe` pops index `0` — the element at
goal-distance `5` — although the element at index `1` has the strictly
smaller goal-distance `3`; the scan never updates `lowest_val` and
indexes the slice `fringe[1:]` off by one. -/
theorem claim2_best_first_pops_nonminimal :
    bestFirstPick exSel frSel = 0 ∧
    frSel.getD (bestFirstPick exSel frSel) (SState.root 5) = SState.root 5 ∧
    exSel.difference_from_goal (SState.root 5) = 5 ∧
    SState.root 3 ∈ frSel ∧
    exSel.difference_from_goal (SState.root 3) = 3 ∧
    exSel.difference_from_goal (SState.root 3) <
      exSel.difference_from_goal
        (frSel.getD (bestFirstPick exSel frSel) (SState.root 5)) := by
  have hpick : bestFirstPick exSel frSel = 0 := by
    norm_num [bestFirstPick, frSel, exSel, evd, SState.value,
      GoalOrientedStateSpace.difference_from_goal,
      GoalOrientedStateSpace.difference, List.enum]
  refine ⟨hpick, by rw [hpick]; rfl, ?_, by simp [frSel], ?_, ?_⟩
  · norm_num [exSel, evd, SState.value,
      GoalOrientedStateSpace.difference_from_goal,
      GoalOrientedStateSpace.difference]
  · norm_num [exSel, evd, SState.value,
      GoalOrientedStateSpace.difference_from_goal,
      GoalOrientedStateSpace.difference]
  · rw [hpick]
    norm_num [exSel, frSel, evd, SState.value,
      GoalOrientedStateSpace.difference_from_goal,
      GoalOrientedStateSpace.difference]

/-- C3 (against the claim): on the fringe whose
`goal_distance + len(parents_sequence)` evaluations are `[6, 4]`,
`GOAStar.next_from_fringe` pops index `0` — evaluation `6` — although the
element at index `1` evaluates to the strictly smaller `4`; the scan has
the same never-updated reference value and off-by-one slice index as
Best-first (and uses `len(parents_sequence)`, i.e. depth + 1, not the
depth itself, a uniform `+1` that cannot change which element is
minimal). -/
theorem claim3_a_star_pops_nonminimal :
    aStarPick exSel frSel = 0 ∧
    frSel.getD (aStarPick exSel frSel) (SState.root 5) = SState.root 5 ∧
    aStarEval exSel (SState.root 5) = 6 ∧
    SState.root 3 ∈ frSel ∧
    aStarEval exSel (SState.root 3) = 4 ∧
    aStarEval exSel (SState.root 3) <
      aStarEval exSel (frSel.getD (aStarPick exSel frSel) (SState.root 5)) := by
  have hpick : aStarPick exSel frSel = 0 := by
    norm_num [aStarPick, frSel, exSel, aStarEval, evd, SState.value,
      SState.parents_sequence, GoalOrientedStateSpace.difference_from_goal,
      GoalOrientedStateSpace.difference, List.enum]
  refine ⟨hpick, by rw [hpick]; rfl, ?_, by simp [frSel], ?_, ?_⟩
  · norm_num [exSel, aStarEval, evd, SState.value, SState.parents_sequence,
      GoalOrientedStateSpace.difference_from_goal,
      GoalOrientedStateSpace.difference]
  · norm_num [exSel, aStarEval, evd, SState.value, SState.parents_sequence,
      GoalOrientedStateSpace.difference_from_goal,
      GoalOrientedStateSpace.difference]
  · rw [hpick]
    norm_num [exSel, frSel, aStarEval, evd, SState.value,
      SState.parents_sequence, GoalOrientedStateSpace.difference_from_goal,
      GoalOrientedStateSpace.difference]

/-- Finitely many iterations of the blind search loop: `BlindSteps ls ls'`
holds when the loop state `ls'` arises from `ls` after zero or more
continuing iterations. -/
inductive BlindSteps (ss : GoalOrientedStateSpace α) (minimize : Bool)
    (pick : List (SState α) → Nat) : LoopState α → LoopState α → Prop where
  | refl (ls : LoopState α) : BlindSteps ss minimize pick ls ls
  | tail {ls ls' ls'' : LoopState α}
      (h : blindStep ss minimize pick ls = .next ls')
      (h' : BlindSteps ss minimize pick ls' ls'') :
      BlindSteps ss minimize pick ls ls''

theorem blindStep_cases (ss : GoalOrientedStateSpace α) (minimize : Bool)
    (pick : List (SState α) → Nat) (ls : LoopState α) :
    (ls.fringe = [] ∧
      blindStep ss minimize pick ls = .done (.failure failMsg)) ∨
    (∃ final, blindStep ss minimize pick ls = .done (.success final)) ∨
    (∃ ls', blindStep ss minimize pick ls = .next ls') := by
  unfold blindStep
  cases hf : ls.fringe with
  | nil => exact Or.inl ⟨rfl, rfl⟩
  | cons x xs =>
    refine Or.inr ?_
    by_cases hskip :
        (minimize && isIn ss ((x :: xs).getD (pick (x :: xs)) x) ls.closed) =
          true
    · exact Or.inr ⟨_, by simp only [hskip, if_true]; rfl⟩
    · simp only [hskip, Bool.false_eq_true, if_false,
        SState.apply_all_filter_ok]
      cases hfind : ((childrenOf ((x :: xs).getD (pick (x :: xs)) x)
          ss.operators).find?
            (fun c => ss.difference_from_goal c == 0)) with
      | some child => exact Or.inl ⟨child, rfl⟩
      | none =>
        refine Or.inr ?_
        by_cases hmin : minimize = true
        · exact ⟨_, by simp only [hmin, if_true]; rfl⟩
        · exact ⟨_, by simp only [hmin, Bool.false_eq_true, if_false]; rfl⟩

theorem blindRun_failure_inv (ss : GoalOrientedStateSpace α)
    (minimize : Bool) (pick : List (SState α) → Nat) :
    ∀ fuel (ls : LoopState α) m,
      blindRun ss minimize pick ls fuel = .failure m →
      m = failMsg ∧
        ∃ ls', BlindSteps ss minimize pick ls ls' ∧ ls'.fringe = [] := by
  intro fuel
  induction fuel with
  | zero => intro ls m h; simp [blindRun] at h
  | succ n ih =>
    intro ls m h
    rw [blindRun] at h
    rcases blindStep_cases ss minimize pick ls with
      ⟨hemp, hstep⟩ | ⟨final, hstep⟩ | ⟨ls', hstep⟩
    · rw [hstep] at h
      cases h
      exact ⟨rfl, ls, BlindSteps.refl ls, hemp⟩
    · rw [hstep] at h; cases h
    · rw [hstep] at h
      rcases ih ls' m h with ⟨hm, ls'', hsteps, hempty⟩
      exact ⟨hm, ls'', BlindSteps.tail hstep hsteps, hempty⟩

theorem blindRun_no_opError (ss : GoalOrientedStateSpace α)
    (minimize : Bool) (pick : List (SState α) → Nat) :
    ∀ fuel (ls : LoopState α),
      (blindRun ss minimize pick ls fuel).isOpError = false := by
  intro fuel
  induction fuel with
  | zero => intro ls; rfl
  | succ n ih =>
    intro ls
    rw [blindRun]
    rcases blindStep_cases ss minimize pick ls with
      ⟨_, hstep⟩ | ⟨final, hstep⟩ | ⟨ls', hstep⟩
    · rw [hstep]; rfl
    · rw [hstep]; rfl
    · rw [hstep]; exact ih ls'

theorem blindRun_no_indexError (ss : GoalOrientedStateSpace α)
    (minimize : Bool) (pick : List (SState α) → Nat) :
    ∀ fuel (ls : LoopState α),
      (blindRun ss minimize pick ls fuel).isIndexError = false := by
  intro fuel
  induction fuel with
  | zero => intro ls; rfl
  | succ n ih =>
    intro ls
    rw [blindRun]
    rcases blindStep_cases ss minimize pick ls with
      ⟨_, hstep⟩ | ⟨final, hstep⟩ | ⟨ls', hstep⟩
    · rw [hstep]; rfl
    · rw [hstep]; rfl
    · rw [hstep]; exact ih ls'

/-- C5: the shared blind loop — hence BFS, DFS, Best-first and A*, which
only change `pick` — raises `SolutionFailure` exactly at an emptied
fringe: an empty fringe immediately yields the failure with its
descriptive message, every failure outcome carries exactly that message
and arises at a loop state whose fringe is empty, and no run ends in any
other error (no operator-application error, no index error). -/
theorem claim5_failure_iff_empty_fringe (ss : GoalOrientedStateSpace α)
    (minimize : Bool) (pick : List (SState α) → Nat) :
    (∀ closed fuel,
      blindRun ss minimize pick ⟨[], closed⟩ (fuel + 1) =
        .failure failMsg) ∧
    (∀ fuel ls m, blindRun ss minimize pick ls fuel = .failure m →
      m = failMsg ∧
        ∃ ls', BlindSteps ss minimize pick ls ls' ∧ ls'.fringe = []) ∧
    (∀ fuel m, blindSolve ss minimize pick fuel = .failure m →
      m = failMsg ∧
        ∃ ls', BlindSteps ss minimize pick ⟨[ss.initial_state], []⟩ ls' ∧
          ls'.fringe = []) ∧
    (∀ fuel ls, (blindRun ss minimize pick ls fuel).isOpError = false) ∧
    (∀ fuel ls, (blindRun ss minimize pick ls fuel).isIndexError = false) ∧
    (∀ fuel, (blindSolve ss minimize pick fuel).isOpError = false) := by
  refine ⟨fun closed fuel => rfl,
    blindRun_failure_inv ss minimize pick, ?_,
    blindRun_no_opError ss minimize pick,
    blindRun_no_indexError ss minimize pick, ?_⟩
  · intro fuel m h
    unfold blindSolve at h
    by_cases hig : ss.init_goal_equality = true
    · rw [if_pos hig] at h; cases h
    · rw [if_neg hig] at h
      exact blindRun_failure_inv ss minimize pick fuel _ m h
  · intro fuel
    unfold blindSolve
    by_cases hig : ss.init_goal_equality = true
    · rw [if_pos hig]; rfl
    · rw [if_neg hig]; exact blindRun_no_opError ss minimize pick fuel _

/-- Witness for C5 on the operator-free space: BFS exhausts the fringe
and fails with the descriptive message, from a loop state with an empty
fringe. -/
theorem claim5_failure_iff_empty_fringe_witness :
    failMsg = failMsg ∧
    ∃ ls', BlindSteps exDead true bfsPick ⟨[exDead.initial_state], []⟩ ls' ∧
      ls'.fringe = [] :=
  (claim5_failure_iff_empty_fringe exDead true bfsPick).2.2.1 3 failMsg rfl

theorem mem_of_mem_eraseIdx {β : Type} {l : List β} {i : ℕ} {x : β}
    (hx : x ∈ l.eraseIdx i) : x ∈ l :=
  (List.eraseIdx_sublist l i).subset hx

theorem iddfs_run_success_or_timeout (ss : GoalOrientedStateSpace α)
    (minimize : Bool) (inc : ℕ) :
    ∀ fuel depthLim fringe closed deeper,
      (∃ final, GOIDDFS.run ss minimize inc depthLim fringe closed deeper
        fuel = .success final) ∨
      GOIDDFS.run ss minimize inc depthLim fringe closed deeper fuel =
        .timeout := by
  intro fuel
  induction fuel with
  | zero =>
    intro dl fr cl dp
    cases fr with
    | nil => exact Or.inr rfl
    | cons x xs => exact Or.inr rfl
  | succ n ih =>
    intro dl fr cl dp
    cases fr with
    | nil =>
      have e : GOIDDFS.run ss minimize inc dl [] cl dp (n + 1) =
          GOIDDFS.run ss minimize inc (dl + inc) (safeAddAll ss [] dp) cl []
            n := rfl
      rw [e]
      exact ih (dl + inc) (safeAddAll ss [] dp) cl []
    | cons x xs =>
      rw [GOIDDFS.run]
      by_cases hskip :
          (minimize &&
            isIn ss ((x :: xs).getD ((x :: xs).length - 1) x) cl) = true
      · simp only [hskip, if_true]
        exact ih dl _ cl dp
      · simp only [hskip, Bool.false_eq_true, if_false]
        by_cases hgoal :
            0 < ss.difference_from_goal
              ((x :: xs).getD ((x :: xs).length - 1) x)
        · simp only [if_pos hgoal, SState.apply_all_filter_ok]
          by_cases hdeep : dl ≤
              (SState.parents_sequence
                ((x :: xs).getD ((x :: xs).length - 1) x)).length - 1
          · simp only [if_pos hdeep]
            exact ih dl _ cl _
          · simp only [if_neg hdeep]
            by_cases hmin : minimize = true
            · rw [if_pos hmin]
              exact ih dl _ _ dp
            · rw [if_neg hmin]
              exact ih dl _ _ dp
        · simp only [if_neg hgoal]
          exact Or.inl ⟨_, rfl⟩

theorem iddfs_run_timeout_of_unreachable (ss : GoalOrientedStateSpace α)
    (minimize : Bool) (inc : ℕ)
    (hU : ∀ v, ReachableVal ss v → 0 < ss.ev v ss.goal_state.value) :
    ∀ fuel depthLim fringe closed deeper,
      (∀ s ∈ fringe, ReachableVal ss s.value) →
      (∀ s ∈ deeper, ReachableVal ss s.value) →
      GOIDDFS.run ss minimize inc depthLim fringe closed deeper fuel =
        .timeout := by
  intro fuel
  induction fuel with
  | zero =>
    intro dl fr cl dp _ _
    cases fr with
    | nil => rfl
    | cons x xs => rfl
  | succ n ih =>
    intro dl fr cl dp hfr hdp
    cases fr with
    | nil =>
      have e : GOIDDFS.run ss minimize inc dl [] cl dp (n + 1) =
          GOIDDFS.run ss minimize inc (dl + inc) (safeAddAll ss [] dp) cl []
            n := rfl
      rw [e]
      refine ih (dl + inc) _ cl [] ?_ (by intro s hs; cases hs)
      intro s hs
      rcases mem_safeAddAll ss hs with h | h
      · cases h
      · exact hdp s h
    | cons x xs =>
      have hcur : ReachableVal ss
          (((x :: xs).getD ((x :: xs).length - 1) x).value) :=
        hfr _ (getD_mem _ (List.mem_cons_self x xs))
      have hrest : ∀ s ∈ (x :: xs).eraseIdx ((x :: xs).length - 1),
          ReachableVal ss s.value :=
        fun s hs => hfr s (mem_of_mem_eraseIdx hs)
      have hch : ∀ s ∈ childrenOf
          ((x :: xs).getD ((x :: xs).length - 1) x) ss.operators,
          ReachableVal ss s.value := by
        intro s hs
        rcases mem_childrenOf.mp hs with ⟨o, ho, ha, rfl⟩
        exact ReachableVal.step o ho ha hcur
      rw [GOIDDFS.run]
      by_cases hskip :
          (minimize &&
            isIn ss ((x :: xs).getD ((x :: xs).length - 1) x) cl) = true
      · simp only [hskip, if_true]
        exact ih dl _ cl dp hrest hdp
      · simp only [hskip, Bool.false_eq_true, if_false]
        have hgoal : 0 < ss.difference_from_goal
            ((x :: xs).getD ((x :: xs).length - 1) x) := hU _ hcur
        simp only [if_pos hgoal, SState.apply_all_filter_ok]
        by_cases hdeep : dl ≤
            (SState.parents_sequence
              ((x :: xs).getD ((x :: xs).length - 1) x)).length - 1
        · simp only [if_pos hdeep]
          refine ih dl _ cl _ hrest ?_
          intro s hs
          rcases List.mem_append.mp hs with h | h
          · exact hdp s h
          · exact hch s h
        · simp only [if_neg hdeep]
          by_cases hmin : minimize = true
          · rw [if_pos hmin]
            refine ih dl _ _ dp ?_ hdp
            intro s hs
            rcases mem_safeAddAll ss hs with h | h
            · exact hrest s h
            · exact hch s h
          · rw [if_neg hmin]
            refine ih dl _ _ dp ?_ hdp
            intro s hs
            rcases List.mem_append.mp hs with h | h
            · exact hrest s h
            · exact hch s h

theorem rop_chosen_apply_ok (cur : SState α) (o : Oper α)
    (rest : List (Oper α)) (ops : List (Oper α)) (k : ℕ)
    (hf : cur.filter_applicable ops = o :: rest) (hk : k < (o :: rest).length) :
    ((o :: rest).getD k dummyOper ∈ ops ∧
      ((o :: rest).getD k dummyOper).applicable cur.value = true) ∧
    cur.apply ((o :: rest).getD k dummyOper) =
      .ok (SState.child
        (((o :: rest).getD k dummyOper).transform cur.value) cur
        ((o :: rest).getD k dummyOper)) := by
  have hmem : (o :: rest).getD k dummyOper ∈ cur.filter_applicable ops := by
    rw [hf, List.getD_eq_getElem _ dummyOper hk]
    exact List.getElem_mem hk
  have hfp := List.mem_filter.mp hmem
  have happ : cur.can_be_applied ((o :: rest).getD k dummyOper) = true :=
    hfp.2
  refine ⟨⟨hfp.1, happ⟩, ?_⟩
  unfold SState.apply
  rw [happ]
  simp

theorem rop_run_shape (ss : GoalOrientedStateSpace α) (picks : ℕ → ℕ) :
    ∀ fuel (cur : SState α),
      (∃ final, RandomOperatorPicker.run ss picks cur fuel =
        .success final) ∨
      RandomOperatorPicker.run ss picks cur fuel = .indexError ∨
      RandomOperatorPicker.run ss picks cur fuel = .timeout := by
  intro fuel
  induction fuel with
  | zero => intro cur; exact Or.inr (Or.inr rfl)
  | succ n ih =>
    intro cur
    rw [RandomOperatorPicker.run]
    by_cases hgoal : 0 < ss.difference_from_goal cur
    · simp only [if_pos hgoal]
      cases hf : cur.filter_applicable ss.operators with
      | nil => exact Or.inr (Or.inl rfl)
      | cons o rest =>
        have hlen : picks n % (o :: rest).length < (o :: rest).length :=
          Nat.mod_lt _ (Nat.succ_pos rest.length)
        have hok := (rop_chosen_apply_ok cur o rest ss.operators
          (picks n % (o :: rest).length) hf hlen).2
        simp only [hok]
        exact ih _
    · simp only [if_neg hgoal]
      exact Or.inl ⟨_, rfl⟩

theorem rop_run_timeout_of_unreachable (ss : GoalOrientedStateSpace α)
    (picks : ℕ → ℕ)
    (hU : ∀ v, ReachableVal ss v → 0 < ss.ev v ss.goal_state.value)
    (hD : ∀ v, ReachableVal ss v →
      (ss.operators.filter (fun o => o.applicable v)) ≠ []) :
    ∀ fuel (cur : SState α), ReachableVal ss cur.value →
      RandomOperatorPicker.run ss picks cur fuel = .timeout := by
  intro fuel
  induction fuel with
  | zero => intro cur _; rfl
  | succ n ih =>
    intro cur hcur
    rw [RandomOperatorPicker.run]
    have hgoal : 0 < ss.difference_from_goal cur := hU _ hcur
    simp only [if_pos hgoal]
    cases hf : cur.filter_applicable ss.operators with
    | nil =>
      exact absurd hf (hD cur.value hcur)
    | cons o rest =>
      have hlen : picks n % (o :: rest).length < (o :: rest).length :=
        Nat.mod_lt _ (Nat.succ_pos rest.length)
      have h := rop_chosen_apply_ok cur o rest ss.operators
        (picks n % (o :: rest).length) hf hlen
      simp only [h.2]
      exact ih _ (ReachableVal.step _ h.1.1 h.1.2 hcur)

/-- Counterexample to C8 as stated: on the operator-free space the
random walk's run terminates — with the `IndexError` of
`random.choice(())` — neither as `SolutionSuccess` nor as
`SolutionFailure`, although the goal is unreachable. -/
theorem claim8_counterexample :
    (RandomOperatorPicker.solve exDead (fun _ => 0) 1).terminated = true ∧
    (RandomOperatorPicker.solve exDead (fun _ => 0) 1).isSuccess = false ∧
    (RandomOperatorPicker.solve exDead (fun _ => 0) 1).isFailure = false :=
  ⟨rfl, rfl, rfl⟩

/-- C8 as amended: neither `GOIDDFS.solve` nor
`RandomOperatorPicker.solve` can end in `SolutionFailure` (or an escaped
operator-application error); a terminating IDDFS run always raises
`SolutionSuccess`, and a terminating random-walk run raises either
`SolutionSuccess` or the dead-end `IndexError`.  When every reachable
value keeps a positive goal-difference, IDDFS never terminates, and the
random walk never terminates provided every reachable value also has an
applicable operator. -/
theorem claim8_no_failure_and_divergence (ss : GoalOrientedStateSpace α) :
    (∀ minimize inc depthLim fringe closed deeper fuel,
      (GOIDDFS.run ss minimize inc depthLim fringe closed deeper
        fuel).isFailure = false ∧
      (GOIDDFS.run ss minimize inc depthLim fringe closed deeper
        fuel).isOpError = false ∧
      (GOIDDFS.run ss minimize inc depthLim fringe closed deeper
        fuel).isIndexError = false ∧
      ((GOIDDFS.run ss minimize inc depthLim fringe closed deeper
        fuel).terminated = true →
        (GOIDDFS.run ss minimize inc depthLim fringe closed deeper
          fuel).isSuccess = true)) ∧
    (∀ picks (cur : SState α) fuel,
      (RandomOperatorPicker.run ss picks cur fuel).isFailure = false ∧
      (RandomOperatorPicker.run ss picks cur fuel).isOpError = false ∧
      ((RandomOperatorPicker.run ss picks cur fuel).terminated = true →
        (RandomOperatorPicker.run ss picks cur fuel).isSuccess = true ∨
        (RandomOperatorPicker.run ss picks cur fuel).isIndexError =
          true)) ∧
    ((∀ v, ReachableVal ss v → 0 < ss.ev v ss.goal_state.value) →
      ∀ minimize inc fuel,
        GOIDDFS.solve ss minimize inc fuel = .timeout) ∧
    ((∀ v, ReachableVal ss v → 0 < ss.ev v ss.goal_state.value) →
      (∀ v, ReachableVal ss v →
        ss.operators.filter (fun o => o.applicable v) ≠ []) →
      ∀ picks fuel,
        RandomOperatorPicker.solve ss picks fuel = .timeout) := by
  refine ⟨?_, ?_, ?_, ?_⟩
  · intro minimize inc dl fr cl dp fuel
    rcases iddfs_run_success_or_timeout ss minimize inc fuel dl fr cl dp
      with ⟨f, hf⟩ | hf
    · rw [hf]; exact ⟨rfl, rfl, rfl, fun _ => rfl⟩
    · rw [hf]; exact ⟨rfl, rfl, rfl, fun h => nomatch h⟩
  · intro picks cur fuel
    rcases rop_run_shape ss picks fuel cur with ⟨f, hf⟩ | hf | hf
    · rw [hf]; exact ⟨rfl, rfl, fun _ => Or.inl rfl⟩
    · rw [hf]; exact ⟨rfl, rfl, fun _ => Or.inr rfl⟩
    · rw [hf]; exact ⟨rfl, rfl, fun h => nomatch h⟩
  · intro hU minimize inc fuel
    refine iddfs_run_timeout_of_unreachable ss minimize inc hU fuel inc
      [ss.initial_state] [] [] ?_ (by intro s hs; cases hs)
    intro s hs
    rcases List.mem_singleton.mp hs with rfl
    exact ReachableVal.init
  · intro hU hD picks fuel
    exact rop_run_timeout_of_unreachable ss picks hU hD fuel
      ss.initial_state ReachableVal.init

/-- Witness for the amended C8 on the self-loop space with unreachable
goal: both IDDFS and the random walk only time out. -/
theorem claim8_no_failure_and_divergence_witness :
    GOIDDFS.solve exLoop true 1 5 = .timeout ∧
    RandomOperatorPicker.solve exLoop (fun _ => 0) 5 = .timeout := by
  have hreach : ∀ v, ReachableVal exLoop v → v = 1 := by
    intro v h
    induction h with
    | init => rfl
    | step o ho ha h ih =>
      have ho' : o = opStay := List.mem_singleton.mp ho
      subst ho'
      simpa [opStay] using ih
  have hU : ∀ v, ReachableVal exLoop v →
      0 < exLoop.ev v exLoop.goal_state.value := by
    intro v h
    rw [hreach v h]
    norm_num [exLoop, evd, SState.value]
  have hD : ∀ v, ReachableVal exLoop v →
      exLoop.operators.filter (fun o => o.applicable v) ≠ [] := by
    intro v _
    simp [exLoop, opStay]
  exact ⟨(claim8_no_failure_and_divergence exLoop).2.2.1 hU true 1 5,
    (claim8_no_failure_and_divergence exLoop).2.2.2 hU hD (fun _ => 0) 5⟩

/-! BFS optimality (C1).  Throughout, `hexact` names the spec's standing
assumption on evaluators (identity of indiscernibles: difference zero
exactly on logically equal states), stated for the shallow embedding as
`ss.ev v w = 0 ↔ v = w`. -/

theorem blindStep_bfs_skip (ss : GoalOrientedStateSpace α)
    (x : SState α) (xs closed : List (SState α))
    (h : isIn ss x closed = true) :
    blindStep ss true bfsPick ⟨x :: xs, closed⟩ = .next ⟨xs, closed⟩ := by
  unfold blindStep bfsPick
  simp [h]

theorem blindStep_bfs_found (ss : GoalOrientedStateSpace α)
    (x final : SState α) (xs closed : List (SState α))
    (h : isIn ss x closed = false)
    (hfind : (childrenOf x ss.operators).find?
      (fun c => ss.difference_from_goal c == 0) = some final) :
    blindStep ss true bfsPick ⟨x :: xs, closed⟩ =
      .done (.success final) := by
  unfold blindStep bfsPick
  simp [h, SState.apply_all_filter_ok, hfind]

theorem blindStep_bfs_expand (ss : GoalOrientedStateSpace α)
    (x : SState α) (xs closed : List (SState α))
    (h : isIn ss x closed = false)
    (hfind : (childrenOf x ss.operators).find?
      (fun c => ss.difference_from_goal c == 0) = none) :
    blindStep ss true bfsPick ⟨x :: xs, closed⟩ =
      .next ⟨safeAddAll ss xs (childrenOf x ss.operators),
             safeAdd ss closed x⟩ := by
  unfold blindStep bfsPick
  simp [h, SState.apply_all_filter_ok, hfind]

/-- The invariant of the BFS instance of the blind loop (with duplicate
suppression on), relative to an exact evaluator. -/
structure BfsInv (ss : GoalOrientedStateSpace α) (ls : LoopState α) :
    Prop where
  sorted : ls.fringe.Pairwise (fun a b => a.depth ≤ b.depth)
  bound : ∀ x xs', ls.fringe = x :: xs' →
    ∀ f ∈ ls.fringe, f.depth ≤ x.depth + 1
  nogoal : ∀ s, s ∈ ls.fringe ∨ s ∈ ls.closed →
    s.value ≠ ss.goal_state.value
  expanded : ∀ c ∈ ls.closed, ∀ o ∈ ss.operators,
    o.applicable c.value = true →
    ∃ s, (s ∈ ls.fringe ∨ s ∈ ls.closed) ∧
      s.value = o.transform c.value ∧ s.depth ≤ c.depth + 1
  closedLe : ∀ c ∈ ls.closed, ∀ f ∈ ls.fringe, c.depth ≤ f.depth
  frontier : ∀ v k, VWalk ss.operators ss.initial_state.value v k →
    (∃ c ∈ ls.closed, c.value = v) ∨
    ∃ f ∈ ls.fringe, ∃ j j2, j + j2 = k ∧ f.depth ≤ j ∧
      VWalk ss.operators f.value v j2

theorem isIn_iff_value (ss : GoalOrientedStateSpace α)
    (hexact : ∀ v w, ss.ev v w = 0 ↔ v = w) (x : SState α)
    (l : List (SState α)) :
    isIn ss x l = true ↔ ∃ s ∈ l, s.value = x.value := by
  rw [isIn_iff]
  constructor
  · rintro ⟨s, hs, hev⟩; exact ⟨s, hs, (hexact _ _).mp hev⟩
  · rintro ⟨s, hs, hv⟩; exact ⟨s, hs, (hexact _ _).mpr hv⟩

theorem safeAddAll_value_cover (ss : GoalOrientedStateSpace α)
    (hexact : ∀ v w, ss.ev v w = 0 ↔ v = w)
    (base cs : List (SState α)) :
    ∀ c ∈ cs, ∃ f ∈ safeAddAll ss base cs, f.value = c.value := by
  intro c hc
  rcases safeAddAll_covers ss base cs c hc with ⟨f, hf, hev | rfl⟩
  · exact ⟨f, hf, (hexact _ _).mp hev⟩
  · exact ⟨f, hf, rfl⟩

theorem childrenOf_depth {c x : SState α} {ops : List (Oper α)}
    (hc : c ∈ childrenOf x ops) : c.depth = x.depth + 1 := by
  rcases mem_childrenOf.mp hc with ⟨o, _, _, rfl⟩
  exact SState.depth_child _ _ _

theorem find_none_no_goal (ss : GoalOrientedStateSpace α)
    (hexact : ∀ v w, ss.ev v w = 0 ↔ v = w) {l : List (SState α)}
    (hfind : l.find? (fun c => ss.difference_from_goal c == 0) = none) :
    ∀ c ∈ l, c.value ≠ ss.goal_state.value := by
  intro c hc hv
  have h := List.find?_eq_none.mp hfind c hc
  apply h
  simp only [beq_iff_eq]
  exact (hexact _ _).mpr hv

theorem vwalk_len_zero {ops : List (Oper α)} {u v : α}
    (h : VWalk ops u v 0) : u = v := by
  cases h; rfl

theorem vwalk_len_succ {ops : List (Oper α)} {u v : α} {k : ℕ}
    (h : VWalk ops u v (k + 1)) :
    ∃ o, o ∈ ops ∧ o.applicable u = true ∧
      VWalk ops (o.transform u) v k := by
  cases h with
  | cons o ho ha hrest => exact ⟨o, ho, ha, hrest⟩

theorem closed_walk_cover (ss : GoalOrientedStateSpace α)
    (x : SState α) (xs closed : List (SState α))
    (hexp : ∀ c ∈ closed, ∀ o ∈ ss.operators,
      o.applicable c.value = true →
      ∃ s, (s ∈ x :: xs ∨ s ∈ closed) ∧ s.value = o.transform c.value ∧
        s.depth ≤ c.depth + 1)
    (hcl : ∀ c ∈ closed, ∀ f ∈ x :: xs, c.depth ≤ f.depth)
    (hxv : ∃ c2 ∈ closed, c2.value = x.value) :
    ∀ {u v : α} {j2 : ℕ}, VWalk ss.operators u v j2 →
      ∀ j, (∃ c ∈ closed, c.value = u ∧ c.depth ≤ j) →
      (∃ c ∈ closed, c.value = v) ∨
      ∃ f ∈ xs, ∃ j' j2', j' + j2' = j + j2 ∧ f.depth ≤ j' ∧
        VWalk ss.operators f.value v j2' := by
  intro u v j2 hw
  induction hw with
  | nil w =>
    rintro j ⟨c, hc, hcv, _⟩
    exact Or.inl ⟨c, hc, hcv⟩
  | cons o ho ha hrest ih =>
    rename_i v0 u0 k0
    rintro j ⟨c, hc, hcv, hcd⟩
    have ha' : o.applicable c.value = true := by rw [hcv]; exact ha
    rcases hexp c hc o ho ha' with ⟨s, hsmem, hsv, hsd⟩
    have hsv' := hsv
    rw [hcv] at hsv'
    have hsd' : s.depth ≤ j + 1 := hsd.trans (Nat.succ_le_succ hcd)
    rcases hsmem with hsf | hsc
    · rcases List.mem_cons.mp hsf with rfl | hsxs
      · rcases hxv with ⟨c2, hc2, hc2v⟩
        have hc2d : c2.depth ≤ j + 1 :=
          (hcl c2 hc2 s (List.mem_cons_self _ _)).trans hsd'
        have hc2v' := hc2v.trans hsv'
        rcases ih (j + 1) ⟨c2, hc2, hc2v', hc2d⟩ with h | h
        · exact Or.inl h
        · rcases h with ⟨f, hf, j', j2', he, hd, hw'⟩
          exact Or.inr ⟨f, hf, j', j2', by omega, hd, hw'⟩
      · refine Or.inr ⟨s, hsxs, j + 1, k0, by omega, hsd', ?_⟩
        rw [hsv']
        exact hrest
    · rcases ih (j + 1) ⟨s, hsc, hsv', hsd'⟩ with h | h
      · exact Or.inl h
      · rcases h with ⟨f, hf, j', j2', he, hd, hw'⟩
        exact Or.inr ⟨f, hf, j', j2', by omega, hd, hw'⟩

theorem bfs_inv_step (ss : GoalOrientedStateSpace α)
    (hexact : ∀ v w, ss.ev v w = 0 ↔ v = w) {ls ls' : LoopState α}
    (hinv : BfsInv ss ls)
    (hstep : blindStep ss true bfsPick ls = .next ls') : BfsInv ss ls' := by
  obtain ⟨fr, cl⟩ := ls
  cases fr with
  | nil =>
    rw [show blindStep ss true bfsPick ⟨[], cl⟩ =
      .done (.failure failMsg) from rfl] at hstep
    cases hstep
  | cons x xs =>
    have hsorted := hinv.sorted
    have hhead : ∀ f ∈ xs, x.depth ≤ f.depth :=
      (List.pairwise_cons.mp hsorted).1
    have htail : xs.Pairwise (fun a b => SState.depth a ≤ SState.depth b) :=
      (List.pairwise_cons.mp hsorted).2
    have hbnd : ∀ f ∈ x :: xs, f.depth ≤ x.depth + 1 := hinv.bound x xs rfl
    by_cases hskip : isIn ss x cl = true
    · rw [blindStep_bfs_skip ss x xs cl hskip] at hstep
      injection hstep with h'
      subst h'
      rcases (isIn_iff_value ss hexact x cl).mp hskip with ⟨c2, hc2, hc2v⟩
      refine ⟨htail, ?_, ?_, ?_, ?_, ?_⟩
      · intro x' xs'' hfr f hf
        have hfr' : xs = x' :: xs'' := hfr
        have hx' : x.depth ≤ x'.depth :=
          hhead x' (hfr' ▸ List.mem_cons_self x' xs'')
        have hfb : f.depth ≤ x.depth + 1 :=
          hbnd f (List.mem_cons_of_mem x hf)
        omega
      · intro s hs
        refine hinv.nogoal s ?_
        rcases hs with h | h
        · exact Or.inl (List.mem_cons_of_mem x h)
        · exact Or.inr h
      · intro c hc o ho ha
        rcases hinv.expanded c hc o ho ha with ⟨s, hsmem, hsv, hsd⟩
        rcases hsmem with hsf | hsc
        · rcases List.mem_cons.mp hsf with rfl | hsxs
          · refine ⟨c2, Or.inr hc2, hc2v.trans hsv, ?_⟩
            exact (hinv.closedLe c2 hc2 s (List.mem_cons_self _ _)).trans hsd
          · exact ⟨s, Or.inl hsxs, hsv, hsd⟩
        · exact ⟨s, Or.inr hsc, hsv, hsd⟩
      · intro c hc f hf
        exact hinv.closedLe c hc f (List.mem_cons_of_mem x hf)
      · intro v k hw
        rcases hinv.frontier v k hw with h | ⟨f, hf, j, j2, he, hd, hw2⟩
        · exact Or.inl h
        · rcases List.mem_cons.mp hf with rfl | hfxs
          · have hc2d : c2.depth ≤ j :=
              (hinv.closedLe c2 hc2 f (List.mem_cons_self _ _)).trans hd
            rcases closed_walk_cover ss f xs cl hinv.expanded hinv.closedLe
              ⟨c2, hc2, hc2v⟩ hw2 j ⟨c2, hc2, hc2v, hc2d⟩ with h | h
            · exact Or.inl h
            · rcases h with ⟨f', hf', j', j2', he', hd', hw'⟩
              exact Or.inr ⟨f', hf', j', j2', by omega, hd', hw'⟩
          · exact Or.inr ⟨f, hfxs, j, j2, he, hd, hw2⟩
    · have hskip' : isIn ss x cl = false := by
        revert hskip; cases isIn ss x cl <;> simp
      cases hfind : (childrenOf x ss.operators).find?
          (fun c => ss.difference_from_goal c == 0) with
      | some final =>
        rw [blindStep_bfs_found ss x final xs cl hskip' hfind] at hstep
        cases hstep
      | none =>
        rw [blindStep_bfs_expand ss x xs cl hskip' hfind] at hstep
        injection hstep with h'
        subst h'
        have hcl' : safeAdd ss cl x = cl ++ [x] := by
          simp [safeAdd, hskip']
        rcases safeAddAll_eq_append ss xs (childrenOf x ss.operators)
          with ⟨l', hF, hl'sub⟩
        have hFlow : ∀ f ∈ safeAddAll ss xs (childrenOf x ss.operators),
            x.depth ≤ f.depth := by
          intro f hf
          rcases mem_safeAddAll ss hf with h | h
          · exact hhead f h
          · rw [childrenOf_depth h]; omega
        have hFhigh : ∀ f ∈ safeAddAll ss xs (childrenOf x ss.operators),
            f.depth ≤ x.depth + 1 := by
          intro f hf
          rcases mem_safeAddAll ss hf with h | h
          · exact hbnd f (List.mem_cons_of_mem x h)
          · rw [childrenOf_depth h]
        refine ⟨?_, ?_, ?_, ?_, ?_, ?_⟩
        · show (safeAddAll ss xs (childrenOf x ss.operators)).Pairwise _
          rw [hF]
          refine List.pairwise_append.mpr ⟨htail, ?_, ?_⟩
          · refine List.pairwise_of_forall_mem_list ?_
            intro a ha b hb
            rw [childrenOf_depth (hl'sub a ha),
              childrenOf_depth (hl'sub b hb)]
          · intro a ha b hb
            have h1 : a.depth ≤ x.depth + 1 :=
              hbnd a (List.mem_cons_of_mem x ha)
            have h2 : b.depth = x.depth + 1 := childrenOf_depth (hl'sub b hb)
            omega
        · intro x' xs'' hfr f hf
          have hfr' : safeAddAll ss xs (childrenOf x ss.operators) =
              x' :: xs'' := hfr
          have hx' : x.depth ≤ x'.depth :=
            hFlow x' (hfr' ▸ List.mem_cons_self x' xs'')
          have hfb : f.depth ≤ x.depth + 1 := hFhigh f hf
          omega
        · intro s hs
          rcases hs with h | h
          · rcases mem_safeAddAll ss h with h2 | h2
            · exact hinv.nogoal s (Or.inl (List.mem_cons_of_mem x h2))
            · exact find_none_no_goal ss hexact hfind s h2
          · rw [hcl'] at h
            rcases List.mem_append.mp h with h2 | h2
            · exact hinv.nogoal s (Or.inr h2)
            · rcases List.mem_singleton.mp h2 with rfl
              exact hinv.nogoal s (Or.inl (List.mem_cons_self _ _))
        · intro c hc o ho ha
          rw [hcl'] at hc
          rcases List.mem_append.mp hc with hc2 | hc2
          · rcases hinv.expanded c hc2 o ho ha with ⟨s, hsmem, hsv, hsd⟩
            rcases hsmem with hsf | hsc
            · rcases List.mem_cons.mp hsf with rfl | hsxs
              · refine ⟨s, Or.inr ?_, hsv, hsd⟩
                rw [hcl']
                exact List.mem_append.mpr (Or.inr (List.mem_singleton.mpr rfl))
              · refine ⟨s, Or.inl ?_, hsv, hsd⟩
                rw [hF]
                exact List.mem_append.mpr (Or.inl hsxs)
            · refine ⟨s, Or.inr ?_, hsv, hsd⟩
              rw [hcl']
              exact List.mem_append.mpr (Or.inl hsc)
          · rcases List.mem_singleton.mp hc2 with rfl
            have hchild : SState.child (o.transform c.value) c o ∈
                childrenOf c ss.operators :=
              mem_childrenOf.mpr ⟨o, ho, ha, rfl⟩
            rcases safeAddAll_value_cover ss hexact xs
              (childrenOf c ss.operators) _ hchild with ⟨f, hfF, hfv⟩
            refine ⟨f, Or.inl hfF, hfv, hFhigh f hfF⟩
        · intro c hc f hf
          rw [hcl'] at hc
          rcases List.mem_append.mp hc with hc2 | hc2
          · exact (hinv.closedLe c hc2 x (List.mem_cons_self _ _)).trans
              (hFlow f hf)
          · rcases List.mem_singleton.mp hc2 with rfl
            exact hFlow f hf
        · intro v k hw
          rcases hinv.frontier v k hw with ⟨c, hc, hcv⟩ |
            ⟨f, hf, j, j2, he, hd, hw2⟩
          · refine Or.inl ⟨c, ?_, hcv⟩
            rw [hcl']
            exact List.mem_append.mpr (Or.inl hc)
          · rcases List.mem_cons.mp hf with rfl | hfxs
            · cases j2 with
              | zero =>
                have hv : f.value = v := vwalk_len_zero hw2
                refine Or.inl ⟨f, ?_, hv⟩
                rw [hcl']
                exact List.mem_append.mpr
                  (Or.inr (List.mem_singleton.mpr rfl))
              | succ k2 =>
                rcases vwalk_len_succ hw2 with ⟨o, ho, ha, hrest⟩
                have hchild : SState.child (o.transform f.value) f o ∈
                    childrenOf f ss.operators :=
                  mem_childrenOf.mpr ⟨o, ho, ha, rfl⟩
                rcases safeAddAll_value_cover ss hexact xs
                  (childrenOf f ss.operators) _ hchild with ⟨f', hf', hfv⟩
                have hfd : f'.depth ≤ j + 1 := by
                  have := hFhigh f' hf'
                  omega
                refine Or.inr ⟨f', hf', j + 1, k2, by omega, hfd, ?_⟩
                rw [show f'.value = o.transform f.value from hfv]
                exact hrest
            · refine Or.inr ⟨f, ?_, j, j2, he, hd, hw2⟩
              rw [hF]
              exact List.mem_append.mpr (Or.inl hfxs)

theorem bfs_step_success_bound (ss : GoalOrientedStateSpace α)
    (hexact : ∀ v w, ss.ev v w = 0 ↔ v = w) {ls : LoopState α}
    {final : SState α} (hinv : BfsInv ss ls)
    (hstep : blindStep ss true bfsPick ls = .done (.success final)) :
    ∀ v k, VWalk ss.operators ss.initial_state.value v k →
      v = ss.goal_state.value → final.depth ≤ k := by
  obtain ⟨fr, cl⟩ := ls
  cases fr with
  | nil =>
    rw [show blindStep ss true bfsPick ⟨[], cl⟩ =
      .done (.failure failMsg) from rfl] at hstep
    cases hstep
  | cons x xs =>
    have hsorted := hinv.sorted
    have hhead : ∀ f ∈ xs, x.depth ≤ f.depth :=
      (List.pairwise_cons.mp hsorted).1
    by_cases hskip : isIn ss x cl = true
    · rw [blindStep_bfs_skip ss x xs cl hskip] at hstep
      cases hstep
    · have hskip' : isIn ss x cl = false := by
        revert hskip; cases isIn ss x cl <;> simp
      cases hfind : (childrenOf x ss.operators).find?
          (fun c => ss.difference_from_goal c == 0) with
      | none =>
        rw [blindStep_bfs_expand ss x xs cl hskip' hfind] at hstep
        cases hstep
      | some final' =>
        rw [blindStep_bfs_found ss x final' xs cl hskip' hfind] at hstep
        injection hstep with h1
        injection h1 with h2
        subst h2
        have hfinmem : final' ∈ childrenOf x ss.operators :=
          List.mem_of_find?_eq_some hfind
        have hfd : final'.depth = x.depth + 1 := childrenOf_depth hfinmem
        intro v k hwalk hv
        rcases hinv.frontier v k hwalk with ⟨c, hc, hcv⟩ |
          ⟨f, hf, j, j2, he, hd, hw2⟩
        · exact absurd (hcv.trans hv) (hinv.nogoal c (Or.inr hc))
        · cases j2 with
          | zero =>
            have hfv : f.value = v := vwalk_len_zero hw2
            exact absurd (hfv.trans hv) (hinv.nogoal f (Or.inl hf))
          | succ k2 =>
            have hxf : x.depth ≤ f.depth := by
              rcases List.mem_cons.mp hf with rfl | hfxs
              · exact le_refl _
              · exact hhead f hfxs
            omega

theorem bfs_run_optimal (ss : GoalOrientedStateSpace α)
    (hexact : ∀ v w, ss.ev v w = 0 ↔ v = w) :
    ∀ fuel (ls : LoopState α) (final : SState α), BfsInv ss ls →
      blindRun ss true bfsPick ls fuel = .success final →
      ∀ v k, VWalk ss.operators ss.initial_state.value v k →
        v = ss.goal_state.value → final.depth ≤ k := by
  intro fuel
  induction fuel with
  | zero =>
    intro ls final _ h
    simp [blindRun] at h
  | succ n ih =>
    intro ls final hinv hrun
    rw [blindRun] at hrun
    cases hstep : blindStep ss true bfsPick ls with
    | done o =>
      rw [hstep] at hrun
      subst hrun
      exact bfs_step_success_bound ss hexact hinv hstep
    | next ls' =>
      rw [hstep] at hrun
      exact ih ls' final (bfs_inv_step ss hexact hinv hstep) hrun

theorem bfs_inv_init (ss : GoalOrientedStateSpace α)
    (hexact : ∀ v w, ss.ev v w = 0 ↔ v = w) (v0 : α)
    (hroot : ss.initial_state = SState.root v0)
    (hng : ss.init_goal_equality = false) :
    BfsInv ss ⟨[ss.initial_state], []⟩ := by
  have hdepth : ss.initial_state.depth = 0 := by rw [hroot]; rfl
  have hne : ss.initial_state.value ≠ ss.goal_state.value := by
    intro h
    have hz : ss.ev ss.initial_state.value ss.goal_state.value = 0 :=
      (hexact _ _).mpr h
    simp [GoalOrientedStateSpace.init_goal_equality,
      GoalOrientedStateSpace.are_the_same,
      GoalOrientedStateSpace.difference, hz] at hng
  refine ⟨?_, ?_, ?_, ?_, ?_, ?_⟩
  · simp
  · intro x xs' hfr f hf
    have hfr' : [ss.initial_state] = x :: xs' := hfr
    rcases List.mem_singleton.mp hf with rfl
    omega
  · intro s hs
    rcases hs with h | h
    · rcases List.mem_singleton.mp h with rfl
      exact hne
    · cases h
  · intro c hc
    cases hc
  · intro c hc
    cases hc
  · intro v k hw
    refine Or.inr ⟨ss.initial_state, List.mem_singleton.mpr rfl, 0, k,
      by omega, by omega, hw⟩

/-- C1: under the spec's standing evaluator assumption (difference zero
exactly on equal values) and with the state space's initial state a root,
whenever `GOBFS.solve` terminates with `SolutionSuccess` the reported
final state's operator sequence is of minimum length among all applicable
operator sequences leading from the initial state's value to a value
evaluator-equal to the goal — in particular minimal among the solutions
inside the explored space. -/
theorem claim1_bfs_optimal (ss : GoalOrientedStateSpace α)
    (hexact : ∀ v w, ss.ev v w = 0 ↔ v = w) (v0 : α)
    (hroot : ss.initial_state = SState.root v0)
    (fuel k : ℕ) (final : SState α) (w : α)
    (hrun : GOBFS.solve ss fuel = .success final)
    (hwalk : VWalk ss.operators ss.initial_state.value w k)
    (hgoal : ss.ev w ss.goal_state.value = 0) :
    final.operators_sequence.length ≤ k := by
  have hgv : w = ss.goal_state.value := (hexact _ _).mp hgoal
  unfold GOBFS.solve blindSolve at hrun
  by_cases hig : ss.init_goal_equality = true
  · rw [if_pos hig] at hrun
    injection hrun with h
    subst h
    show ss.initial_state.depth ≤ k
    rw [hroot]
    exact Nat.zero_le k
  · have hig' : ss.init_goal_equality = false := by
      revert hig; cases ss.init_goal_equality <;> simp
    rw [if_neg hig] at hrun
    exact bfs_run_optimal ss hexact fuel ⟨[ss.initial_state], []⟩ final
      (bfs_inv_init ss hexact v0 hroot hig') hrun w k hwalk hgv

/-- The state BFS reports on the chain space `1 -> 2 -> 3`. -/
def finChain : SState ℕ :=
  SState.child 3 (SState.child 2 (SState.root 1) (opTo 1 2)) (opTo 2 3)

/-- Witness for C1 on the chain space: BFS succeeds with the depth-2
state, and the theorem bounds its operator sequence by the length-2
walk to the goal value. -/
theorem claim1_bfs_optimal_witness :
    GOBFS.solve exChain 10 = .success finChain ∧
    finChain.operators_sequence.length ≤ 2 := by
  refine ⟨rfl, ?_⟩
  refine claim1_bfs_optimal exChain (fun v w => evd_eq_zero_iff v w) 1 rfl
    10 2 finChain 3 rfl ?_ ((evd_eq_zero_iff 3 3).mpr rfl)
  exact VWalk.cons (opTo 1 2) (List.mem_cons_self _ _) rfl
    (VWalk.cons (opTo 2 3)
      (List.mem_cons_of_mem _ (List.mem_cons_self _ _)) rfl (VWalk.nil 3))

end StateSpaceFW
